import Mathlib

/-!
Verification of the bowling scoring engine (`bowling_classes_core.js`) and the
`RandomRoller` utility of the web-UI module.

The JavaScript source is embedded shallowly:
  * a JS roll value that may be `null` ("not yet thrown") becomes `Option Int`;
  * `ScoringFrame` becomes a structure holding the constructor inputs, with the
    fields derived in the constructor body modelled as functions of those inputs
    (the constructor computes them deterministically from its inputs);
  * the `ScoringFrameList` constructor loop becomes the recursion `buildFrames`;
  * exceptions thrown by `Game.addRoll` and
    `RandomRoller.setPctToHitRemainingPins` become `Except` results paired with
    the (unchanged or updated) receiver object, mirroring the mutation of `this`;
  * a JS number fed to the `RandomRoller` setter is modelled by `JSNum`, which
    keeps `NaN` as an explicit value because `typeof NaN == 'number'` and NaN
    comparisons matter for the setter's range check.
-/

/-! ## ScoringFrame

`function ScoringFrame(roll1, roll2, roll3, isLastFrame, supportingScore, valueForStrike)`.
The structure stores the (null-conformed) constructor inputs.  Inside the
repository every call site passes each roll argument as either a number or the
literal `null`, so the raw parameters and the null-conformed fields coincide;
`Option Int` models both. -/
structure ScoringFrame where
  roll1 : Option Int
  roll2 : Option Int
  roll3 : Option Int
  isLastFrame : Bool
  supportingScore : Int
  valueForStrike : Int
deriving DecidableEq, Repr

/-- `this.scoreForFrame = this.roll1 + this.roll2 + this.roll3`
(JS `null` contributes 0 to arithmetic). -/
def ScoringFrame.scoreForFrame (sf : ScoringFrame) : Int :=
  sf.roll1.getD 0 + sf.roll2.getD 0 + sf.roll3.getD 0

/-- `this.runningScore = this.supportingScore + this.scoreForFrame`. -/
def ScoringFrame.runningScore (sf : ScoringFrame) : Int :=
  sf.supportingScore + sf.scoreForFrame

/-- `this.isFirstRollStrike = this.roll1 == valueForStrike`
(`null == number` is false in JS). -/
def ScoringFrame.isFirstRollStrike (sf : ScoringFrame) : Bool :=
  sf.roll1 == some sf.valueForStrike

/-- `this.isSecondRollSpare = this.roll1 != null && !this.isFirstRollStrike &&
this.roll2 != null && this.roll1 + this.roll2 == valueForStrike`. -/
def ScoringFrame.isSecondRollSpare (sf : ScoringFrame) : Bool :=
  sf.roll1.isSome && !sf.isFirstRollStrike && sf.roll2.isSome &&
    (sf.roll1.getD 0 + sf.roll2.getD 0 == sf.valueForStrike)

/-- `this.isSecondRollStrike = this.isFirstRollStrike && this.roll2 == valueForStrike`. -/
def ScoringFrame.isSecondRollStrike (sf : ScoringFrame) : Bool :=
  sf.isFirstRollStrike && (sf.roll2 == some sf.valueForStrike)

/-- `this.isThirdRollSpare = this.isFirstRollStrike && this.roll2 != null &&
this.roll3 != null && !this.isSecondRollStrike && this.roll2 + this.roll3 == valueForStrike`. -/
def ScoringFrame.isThirdRollSpare (sf : ScoringFrame) : Bool :=
  sf.isFirstRollStrike && sf.roll2.isSome && sf.roll3.isSome &&
    !sf.isSecondRollStrike && (sf.roll2.getD 0 + sf.roll3.getD 0 == sf.valueForStrike)

/-- `this.isThirdRollStrike = this.roll3 == valueForStrike && !this.isThirdRollSpare`. -/
def ScoringFrame.isThirdRollStrike (sf : ScoringFrame) : Bool :=
  (sf.roll3 == some sf.valueForStrike) && !sf.isThirdRollSpare

/-- The `this.isComplete` conditional chain of the constructor. -/
def ScoringFrame.isComplete (sf : ScoringFrame) : Bool :=
  if sf.isFirstRollStrike && sf.roll2.isSome && sf.roll3.isSome then true
  else if sf.isLastFrame && sf.isSecondRollStrike && sf.roll3.isSome then true
  else if sf.isSecondRollSpare && sf.roll3.isSome then true
  else if !sf.isFirstRollStrike && !sf.isSecondRollSpare &&
            sf.roll1.isSome && sf.roll2.isSome then true
  else false

/-- The `this.remainingPins` conditional chain of the constructor.  The JS code
mixes the conformed fields (`this.roll1`) with the raw parameters (`roll2`,
`roll3`); at every call site in the repository the raw parameters are numbers
or `null`, so both read as the same `Option Int` here.  The single `&` (bitwise
and, applied after `==` by JS precedence) on the spare line coerces its boolean
operands to 0/1 and so behaves as a logical conjunction. -/
def ScoringFrame.remainingPins (sf : ScoringFrame) : Int :=
  if sf.isLastFrame && sf.isComplete then 0
  else if sf.roll1.isNone then sf.valueForStrike
  else if sf.isLastFrame && sf.isSecondRollStrike && sf.roll3.isNone then sf.valueForStrike
  else if sf.isFirstRollStrike && sf.roll2.isNone then sf.valueForStrike
  else if sf.isSecondRollSpare && sf.roll3.isNone then sf.valueForStrike
  else if sf.isFirstRollStrike && sf.roll3.isNone then sf.valueForStrike - sf.roll2.getD 0
  else sf.valueForStrike - sf.roll1.getD 0

/-! ## ScoringFrameList

The constructor's `while (rollIndex < rollCount)` loop, as a recursion over the
suffix of rolls not yet consumed.  `framesBuilt` is `this.scoringFrames.length`
at the start of the iteration and `supportingScore` is the `runningScore` of
the most recently pushed frame (0 when none).  Every roll stored by `Game` is a
number, so the list elements are `Int` and the loop's `roll != null` guards are
always true. -/

/-- `this.scoringFrames.length == numberOfFrames - 1` (and, in the
`DisplayFrameList` padding loop, `i == scoringFramesList.numberOfFrames - 1`):
whether the frame about to be built at index `i` is the game's last frame.
The subtraction is JS number arithmetic, hence computed in `Int`. -/
def isLastFlag (nof : Nat) (i : Nat) : Bool :=
  (i : Int) == (nof : Int) - 1

/-- The JS final-`else` guard, factored out: is there a next roll and does
`roll + rollNext` exceed the strike value? -/
def overflowCheck (vfs roll : Int) : Option Int → Bool
  | none => false
  | some rollNext => vfs < roll + rollNext

/-- One loop iteration creates a frame from `rolls[rollIndex]` and up to two
lookahead rolls, then advances `rollIndex` by 1 (strike / single-roll frame)
or 2 (spare / open frame), exiting early on a completed or strike last frame.

The JS `else if` ladder tests, for a non-strike first roll: spare
(`roll + rollNext == vfs`), open (`roll + rollNext < vfs`), and otherwise a
single-roll frame (no second roll available, or `roll + rollNext > vfs`).
These conditions are mutually exclusive, so the overflow test
(`roll + rollNext > vfs`) is hoisted first here, which the structural
recursion requires; the branch bodies are those of the source. -/
def buildFrames (vfs : Int) (nof : Nat) :
    List Int → Nat → Int → List ScoringFrame
  | [], _, _ => []
  | roll :: rest, framesBuilt, supportingScore =>
    -- `var isLastFrame = this.scoringFrames.length == numberOfFrames - 1;`
    let isLast : Bool := isLastFlag nof framesBuilt
    if roll == vfs then
      -- strike: frame takes this roll and the next two as lookahead
      let sf : ScoringFrame :=
        ⟨some roll, rest.head?, rest.tail.head?, isLast, supportingScore, vfs⟩
      if isLast then [sf]  -- `rollIndex = rollCount + 1` exits the loop
      else sf :: buildFrames vfs nof rest (framesBuilt + 1) sf.runningScore
    else
      if overflowCheck vfs roll rest.head? then
        -- `roll + rollNext > vfs`: incomplete frame with just this roll
        -- (the JS final `else`), the very next roll starts its own frame
        let sf : ScoringFrame :=
          ⟨some roll, none, none, isLast, supportingScore, vfs⟩
        sf :: (if isLast && sf.isComplete then []
               else buildFrames vfs nof rest (framesBuilt + 1) sf.runningScore)
      else
        match rest with
        | [] =>
          -- no second roll available: incomplete single-roll frame, loop ends
          [⟨some roll, none, none, isLast, supportingScore, vfs⟩]
        | rollNext :: rest2 =>
          if roll + rollNext == vfs then
            -- two-roll spare: frame takes the spare and the next single roll
            let sf : ScoringFrame :=
              ⟨some roll, some rollNext, rest2.head?, isLast, supportingScore, vfs⟩
            sf :: (if isLast && sf.isComplete then []
                   else buildFrames vfs nof rest2 (framesBuilt + 1) sf.runningScore)
          else
            -- not overflow, not a spare, hence `roll + rollNext < vfs`:
            -- open frame from two complete rolls (third slot left null)
            let sf : ScoringFrame :=
              ⟨some roll, some rollNext, none, isLast, supportingScore, vfs⟩
            sf :: (if isLast && sf.isComplete then []
                   else buildFrames vfs nof rest2 (framesBuilt + 1) sf.runningScore)

/-- The `remainingPins` computation at the end of the `ScoringFrameList`
constructor, generalized by the number `fb` of frames that precede `fs` in the
full frame list (the constructor itself uses `fb = 0`):
`noFramesYet ? vfs : inFinalFrame && mostRecent.isComplete ? 0
 : mostRecent.isComplete ? vfs : mostRecent.remainingPins`. -/
def framesRemaining (vfs : Int) (nof : Nat) (fb : Nat) (fs : List ScoringFrame) : Int :=
  match fs.getLast? with
  | none => vfs
  | some mostRecent =>
    if (fb + fs.length == nof) && mostRecent.isComplete then 0
    else if mostRecent.isComplete then vfs
    else mostRecent.remainingPins

/-- `function ScoringFrameList(rolls, valueForStrike, numberOfFrames)`: the
object's stored data. -/
structure ScoringFrameList where
  valueForStrike : Int
  numberOfFrames : Nat
  scoringFrames : List ScoringFrame
  remainingPins : Int
deriving DecidableEq, Repr

/-- The `ScoringFrameList` constructor. -/
def mkScoringFrameList (rolls : List Int) (vfs : Int) (nof : Nat) : ScoringFrameList :=
  let fs := buildFrames vfs nof rolls 0 0
  ⟨vfs, nof, fs, framesRemaining vfs nof 0 fs⟩

/-! ## DisplayFrame

`function DisplayFrame(scoringFrame, strikeDisplay, spareDisplay, zeroDisplay)`.
The constructor derives three display-slot strings and a score string from a
scoring frame; the glyph parameters are passed explicitly here (the JS
defaults `'X'`, `'/'`, `'-'` are applied by the callers' own defaulting,
modelled in `mkGame`). -/
structure DisplayFrame where
  slot1 : String
  slot2 : String
  slot3 : String
  score : String
deriving DecidableEq, Repr

/-- The `DisplayFrame` constructor body. -/
def mkDisplayFrame (sf : ScoringFrame)
    (strikeDisplay spareDisplay zeroDisplay : String) : DisplayFrame :=
  -- `var validRollN = typeof(scoringFrame.rollN) == 'number';`
  let validRoll1 := sf.roll1.isSome
  let validRoll2 := sf.roll2.isSome
  let validRoll3 := sf.roll3.isSome
  if !sf.isLastFrame then
    -- normal frame: slot 1 blank on a strike, else the roll value
    { slot1 :=
        if sf.isFirstRollStrike then ""
        else if validRoll1 && (sf.roll1 == some 0) then zeroDisplay
        else if validRoll1 then toString (sf.roll1.getD 0)
        else ""
      -- slot 2 carries the mark (strike or spare) or the roll value
      slot2 :=
        if sf.isFirstRollStrike then strikeDisplay
        else if sf.isSecondRollSpare then spareDisplay
        else if validRoll2 && (sf.roll2 == some 0) then zeroDisplay
        else if validRoll2 then toString (sf.roll2.getD 0)
        else ""
      slot3 := ""
      score := if !sf.isComplete then "" else toString sf.runningScore }
  else
    -- last frame: a first-roll strike is shown in the first slot
    { slot1 :=
        if sf.isFirstRollStrike then strikeDisplay
        else if validRoll1 && (sf.roll1 == some 0) then zeroDisplay
        else if validRoll1 then toString (sf.roll1.getD 0)
        else ""
      slot2 :=
        if sf.isSecondRollStrike then strikeDisplay
        else if sf.isSecondRollSpare then spareDisplay
        else if validRoll2 && (sf.roll2 == some 0) then zeroDisplay
        else if validRoll2 then toString (sf.roll2.getD 0)
        else ""
      slot3 :=
        if sf.isThirdRollStrike then strikeDisplay
        else if sf.isThirdRollSpare then spareDisplay
        else if validRoll3 && (sf.roll3 == some 0) then zeroDisplay
        else if validRoll3 then toString (sf.roll3.getD 0)
        else ""
      score := if !sf.isComplete then "" else toString sf.runningScore }

/-! ## DisplayFrameList -/

/-- A placeholder scoring frame created by the `DisplayFrameList` padding loop:
`new ScoringFrame(null, null, null, i == scoringFramesList.numberOfFrames - 1,
0, scoringFramesList.valueForStrike)`. -/
def placeholderFrame (vfs : Int) (nof : Nat) (i : Nat) : ScoringFrame :=
  ⟨none, none, none, isLastFlag nof i, 0, vfs⟩

/-- `function DisplayFrameList(scoringFramesList, strikeDisplay, spareDisplay,
zeroDisplay)`: one display frame per scoring frame, then empty placeholder
frames for indices `scoringFrames.length, …, numberOfFrames - 1`. -/
structure DisplayFrameList where
  displayFrames : List DisplayFrame
deriving DecidableEq, Repr

/-- The `DisplayFrameList` constructor body. -/
def mkDisplayFrameList (sfl : ScoringFrameList)
    (strikeDisplay spareDisplay zeroDisplay : String) : DisplayFrameList :=
  let fromScoring := sfl.scoringFrames.map
    (fun sf => mkDisplayFrame sf strikeDisplay spareDisplay zeroDisplay)
  let padding := (List.range' sfl.scoringFrames.length
      (sfl.numberOfFrames - sfl.scoringFrames.length)).map
    (fun i => mkDisplayFrame (placeholderFrame sfl.valueForStrike sfl.numberOfFrames i)
      strikeDisplay spareDisplay zeroDisplay)
  ⟨fromScoring ++ padding⟩

/-! ## Game -/

/-- The errors thrown by `Game.addRoll` (the spec's `InvalidRoll` kind),
one constructor per `throw` site. -/
inductive RollError where
  | gameEnded    -- "The game has ended.  No more rolls may be added"
  | notANumber   -- "The roll value must be a number."
  | outOfRange   -- "The value must be between 0 and <remainingPins> for the next roll."
deriving DecidableEq, Repr

/-- `function Game(valueForStrike, numberOfFrames, strikeDisplay, spareDisplay,
zeroDisplay)`: the object's mutable state and configuration. -/
structure Game where
  valueForStrike : Int
  numberOfFrames : Nat
  strikeDisplay : String
  spareDisplay : String
  zeroDisplay : String
  rolls : List Int
  remainingPins : Int
  isGameOver : Bool
deriving DecidableEq, Repr

/-- The `Game` constructor; `none` arguments model omitted (`undefined`)
parameters, defaulted to 10 pins, 10 frames, and `"X"`, `"/"`, `"-"`. -/
def mkGame (valueForStrike : Option Int) (numberOfFrames : Option Nat)
    (strikeDisplay spareDisplay zeroDisplay : Option String) : Game :=
  { valueForStrike := valueForStrike.getD 10
    numberOfFrames := numberOfFrames.getD 10
    strikeDisplay := strikeDisplay.getD "X"
    spareDisplay := spareDisplay.getD "/"
    zeroDisplay := zeroDisplay.getD "-"
    rolls := []
    remainingPins := valueForStrike.getD 10
    isGameOver := false }

/-- `new Game()` with every parameter omitted. -/
def defaultGame : Game := mkGame none none none none none

/-- `Game.processRollsToScoringFrames()`: rebuilds the `ScoringFrameList` from
the current rolls and updates `this.remainingPins` and `this.isGameOver`.
Returns the list together with the updated game (the mutation of `this`). -/
def Game.processRollsToScoringFrames (g : Game) : ScoringFrameList × Game :=
  let sfl := mkScoringFrameList g.rolls g.valueForStrike g.numberOfFrames
  (sfl, { g with remainingPins := sfl.remainingPins,
                 isGameOver := sfl.remainingPins == 0 })

/-- `Game.processRolls()`: derives the display frames, refreshing
`remainingPins`/`isGameOver` as a side effect of the internal rebuild. -/
def Game.processRolls (g : Game) : DisplayFrameList × Game :=
  let r := g.processRollsToScoringFrames
  (mkDisplayFrameList r.1 g.strikeDisplay g.spareDisplay g.zeroDisplay, r.2)

/-- `Game.newGame()`: clears the rolls, the game-over flag, and restores
`remainingPins` to the configured strike value. -/
def Game.newGame (g : Game) : Game :=
  { g with rolls := [], isGameOver := false, remainingPins := g.valueForStrike }

/-- `Game.addRoll(rollValue)`.  The argument is the result of the JS
`Number(rollValue)` coercion: `none` when that coercion yields `NaN`
(the `isNaN(v)` check), `some v` otherwise.  Returns the game object after the
call (unchanged whenever an exception is thrown, since every `throw` happens
before `this.rolls.push(v)`) together with the thrown error or returned value. -/
def Game.addRoll (g : Game) (rollValue : Option Int) : Game × Except RollError Int :=
  if g.remainingPins == 0 then (g, .error .gameEnded)
  else
    match rollValue with
    | none => (g, .error .notANumber)
    | some v =>
      if v ≤ g.remainingPins && 0 ≤ v then
        let g1 := { g with rolls := g.rolls ++ [v] }
        ((g1.processRollsToScoringFrames).2, .ok v)
      else (g, .error .outOfRange)

/-- Feeding a whole list of rolls through `Game.addRoll`; `none` as soon as
any roll is rejected.  This is the acceptance notion used by the spec's
"roll histories accepted by Game". -/
def Game.addAll (g : Game) : List Int → Option Game
  | [] => some g
  | v :: rest =>
    match g.addRoll (some v) with
    | (g', Except.ok _) => g'.addAll rest
    | (_, Except.error _) => none

/-! ## RandomRoller (web-UI module)

Only the ability-level setter carries verifiable logic (`roll()` draws from
`Math.random()`).  A JS number is modelled by `JSNum`, keeping `NaN` explicit:
`typeof NaN == 'number'`, and `NaN < 0` and `NaN > 1` are both false, facts the
setter's validation depends on. -/

/-- A JS number: either `NaN` or an ordinary (rational) numeric value. -/
inductive JSNum where
  | nan
  | num (q : ℚ)
deriving DecidableEq, Repr

/-- JS `<` against a numeric literal: false whenever the value is `NaN`. -/
def JSNum.ltc (x : JSNum) (c : ℚ) : Bool :=
  match x with
  | .nan => false
  | .num q => q < c

/-- JS `>` against a numeric literal: false whenever the value is `NaN`. -/
def JSNum.gtc (x : JSNum) (c : ℚ) : Bool :=
  match x with
  | .nan => false
  | .num q => c < q

/-- The error thrown by the `RandomRoller` setter (the spec's
`InvalidConfiguration` kind), one constructor per `throw` site. -/
inductive ConfigError where
  | notNumber    -- "... must be a number."
  | outOfRange   -- "... must be a decimal number between 0 and 1 inclusive."
deriving DecidableEq, Repr

/-- The state of a `RandomRoller` object relevant to its ability level. -/
structure RandomRoller where
  pctToHitRemainingPins : JSNum
deriving DecidableEq, Repr

/-- `RandomRoller.setPctToHitRemainingPins(newValue)`: `none` models a value
with `typeof(newValue) != 'number'`; the range check is
`newValue < 0 || newValue > 1`.  Returns the object after the call (unchanged
whenever an exception is thrown). -/
def RandomRoller.setPctToHitRemainingPins (rr : RandomRoller)
    (newValue : Option JSNum) : RandomRoller × Except ConfigError Unit :=
  match newValue with
  | none => (rr, .error .notNumber)
  | some v =>
    if v.ltc 0 || v.gtc 1 then (rr, .error .outOfRange)
    else ({ pctToHitRemainingPins := v }, .ok ())

/-! ## An abstract per-roll state machine

`ScoringFrameList` re-parses the whole roll history after every roll.  For
proving invariants over all histories accepted by `Game`, the parse of an
accepted history is summarized by a small state advanced one roll at a time:
which frame the next roll falls into and which pins still stand.  `buildFrames`
is related to this machine by `buildFrames_machine` below, only under the
per-roll validity `validFrom` that `Game.addRoll` enforces. -/

/-- The frontier of the parse after some rolls: `fresh k` — the next roll
starts frame `k` (0-based); `half k r` — frame `k` has the single non-strike
roll `r`; `lastS1` — the last frame has one roll, a strike; `lastS2 r` — the
last frame has a strike then `r`; `lastSpare` — the last frame holds a spare
awaiting its third roll; `ended` — the game is over. -/
inductive PState where
  | fresh (k : Nat)
  | half (k : Nat) (r : Int)
  | lastS1
  | lastS2 (r : Int)
  | lastSpare
  | ended
deriving DecidableEq, Repr

/-- Advance the frontier by one roll.  The `half` overflow arm (`vfs < r + v`,
where the parse commits a single-roll frame and re-dispatches `v`) is
unreachable for rolls validated against `stateRP`. -/
def step (vfs : Int) (nof : Nat) : PState → Int → PState
  | .fresh k, v =>
    if v == vfs then (if k + 1 == nof then .lastS1 else .fresh (k + 1))
    else .half k v
  | .half k r, v =>
    if r + v == vfs then (if k + 1 == nof then .lastSpare else .fresh (k + 1))
    else if r + v < vfs then (if k + 1 == nof then .ended else .fresh (k + 1))
    else if v == vfs then (if k + 2 == nof then .lastS1 else .fresh (k + 2))
    else .half (k + 1) v
  | .lastS1, v => .lastS2 v
  | .lastS2 _, _ => .ended
  | .lastSpare, _ => .ended
  | .ended, _ => .ended

/-- The pins available to the next roll, read off the frontier. -/
def stateRP (vfs : Int) : PState → Int
  | .fresh _ => vfs
  | .half _ r => vfs - r
  | .lastS1 => vfs
  | .lastS2 r => if r == vfs then vfs else vfs - r
  | .lastSpare => vfs
  | .ended => 0

/-- Every roll of the list passes the `Game.addRoll` checks against the pins
left at its own position: the game is not over, and `0 ≤ v ≤ remainingPins`. -/
def validFrom (vfs : Int) (nof : Nat) : PState → List Int → Prop
  | _, [] => True
  | s, v :: rest =>
    stateRP vfs s ≠ 0 ∧ 0 ≤ v ∧ v ≤ stateRP vfs s ∧
      validFrom vfs nof (step vfs nof s v) rest

/-- Each frame's `supportingScore` is the previous frame's `runningScore`
(`s` for the first frame). -/
def chainedFrom (s : Int) : List ScoringFrame → Prop
  | [] => True
  | f :: t => f.supportingScore = s ∧ chainedFrom f.runningScore t

/-- Once an incomplete frame appears, every later frame is incomplete — i.e.
the complete frames form a prefix of the list. -/
def frontComplete : List ScoringFrame → Prop
  | [] => True
  | f :: t => (f.isComplete = false → ∀ g ∈ t, g.isComplete = false) ∧ frontComplete t

/-! ## The remaining-pins rule as the specification words it (for claim C4) -/

/-- Modelled from the spec: the claim's four-case description of
`ScoringFrameList.remainingPins` — "valueForStrike if the frame list is empty;
0 if the frame list has numberOfFrames frames and the most recent frame is
complete; valueForStrike if the most recent frame is complete but **fewer
than** numberOfFrames frames exist; and otherwise the most recent frame's own
remainingPins value." -/
def claimedRemainingPins (vfs : Int) (nof : Nat) (fs : List ScoringFrame) : Int :=
  match fs.getLast? with
  | none => vfs
  | some m =>
    if fs.length = nof ∧ m.isComplete = true then 0
    else if m.isComplete = true ∧ fs.length < nof then vfs
    else m.remainingPins

/-- Modelled from the spec, amended: as `claimedRemainingPins`, but the
`valueForStrike` case applies whenever the most recent frame is complete and
the frame count **differs from** `numberOfFrames` (not only when fewer exist). -/
def amendedRemainingPins (vfs : Int) (nof : Nat) (fs : List ScoringFrame) : Int :=
  match fs.getLast? with
  | none => vfs
  | some m =>
    if fs.length = nof ∧ m.isComplete = true then 0
    else if m.isComplete = true ∧ fs.length ≠ nof then vfs
    else m.remainingPins

/-- All four display strings of a frame are empty. -/
def DisplayFrame.isBlank (df : DisplayFrame) : Bool :=
  df.slot1 == "" && df.slot2 == "" && df.slot3 == "" && df.score == ""

deriving instance DecidableEq for Except

/-- The game state after `k` rolls of the perfect game (all strikes, default
configuration): `remainingPins` stays 10 through the eleventh roll and drops
to 0 at the twelfth, which also ends the game. -/
def strikeTrace (k : Nat) : Game :=
  { valueForStrike := 10, numberOfFrames := 10, strikeDisplay := "X",
    spareDisplay := "/", zeroDisplay := "-",
    rolls := List.replicate k 10,
    remainingPins := if k < 12 then 10 else 0,
    isGameOver := decide (12 ≤ k) }

/-- The state invariant that `Game.addRoll` maintains on the default
configuration: the configuration is the default one, every stored roll lies in
`[0, 10]`, `remainingPins` agrees with a fresh re-parse of the roll history,
and `isGameOver` mirrors `remainingPins == 0`. -/
def gameInv (g : Game) : Prop :=
  g.valueForStrike = 10 ∧ g.numberOfFrames = 10 ∧
  g.strikeDisplay = "X" ∧ g.spareDisplay = "/" ∧ g.zeroDisplay = "-" ∧
  (∀ r ∈ g.rolls, 0 ≤ r ∧ r ≤ 10) ∧
  g.remainingPins = (mkScoringFrameList g.rolls 10 10).remainingPins ∧
  g.isGameOver = (g.remainingPins == 0)

/-- The machine-frontier invariant that `Game.addRoll` maintains on the default
configuration: each stored roll was valid at its own position and
`remainingPins` equals the frontier's pin count. -/
def machInv (g : Game) : Prop :=
  g.valueForStrike = 10 ∧ g.numberOfFrames = 10 ∧
  validFrom 10 10 (PState.fresh 0) g.rolls ∧
  g.remainingPins = stateRP 10 (List.foldl (step 10 10) (PState.fresh 0) g.rolls)

/-! # Theorems -/

set_option maxHeartbeats 1000000 in
/-- C1: with `valueForStrike = 10` and `numberOfFrames = 10`, the twelve-strike
history is accepted in full by `Game.addRoll` — starting from the fresh default
game, each of the twelve strikes is accepted (`Except.ok 10`) and produces the
next `strikeTrace` state — the final frame's `runningScore` is exactly 300,
and `remainingPins` is 0 only after the twelfth strike: after every shorter
prefix (including the empty one) it is positive. -/
theorem perfect_game_three_hundred :
    strikeTrace 0 = defaultGame
    ∧ ((List.range 12).all (fun k =>
         decide (Game.addRoll (strikeTrace k) (some 10)
           = (strikeTrace (k + 1), Except.ok 10)))) = true
    ∧ ((List.range 12).all (fun k => decide (0 < (strikeTrace k).remainingPins))) = true
    ∧ (strikeTrace 12).remainingPins = 0
    ∧ ((mkScoringFrameList (strikeTrace 12).rolls 10 10).scoringFrames.getLast?.map
        ScoringFrame.runningScore) = some 300 := by
  decide

/-- C4 counterexample: for the roll list `[3, 8, 1]` with `valueForStrike = 10`
and `numberOfFrames = 1`, the scan builds two frames (the second one complete),
so the claim's four cases predict the most recent frame's own `remainingPins`
(which is 2), while the code returns `valueForStrike = 10`. -/
theorem remainingPins_rule_counterexample :
    claimedRemainingPins 10 1 (mkScoringFrameList [3, 8, 1] 10 1).scoringFrames = 2
    ∧ (mkScoringFrameList [3, 8, 1] 10 1).remainingPins = 10 := by
  decide

/-- C4 amended: after the scan the returned `remainingPins` equals:
`valueForStrike` if the frame list is empty; 0 if the frame list has exactly
`numberOfFrames` frames and the most recent frame is complete; `valueForStrike`
if the most recent frame is complete but the number of frames differs from
`numberOfFrames`; and otherwise the most recent frame's own `remainingPins`. -/
theorem remainingPins_rule_amended (rolls : List Int) (vfs : Int) (nof : Nat) :
    (mkScoringFrameList rolls vfs nof).remainingPins
      = amendedRemainingPins vfs nof (mkScoringFrameList rolls vfs nof).scoringFrames := by
  show framesRemaining vfs nof 0 (buildFrames vfs nof rolls 0 0)
      = amendedRemainingPins vfs nof (buildFrames vfs nof rolls 0 0)
  generalize buildFrames vfs nof rolls 0 0 = fs
  unfold framesRemaining amendedRemainingPins
  cases h : fs.getLast? with
  | none => rfl
  | some m =>
    by_cases hc : m.isComplete = true
    · by_cases hn : fs.length = nof
      · simp [hc, hn]
      · simp [hc, hn]
    · simp [hc, Bool.not_eq_true _ ▸ hc]

/-- C5 counterexample: the parse of the single-strike history `[10]`
(`valueForStrike = 10`, `numberOfFrames = 10`) produces one non-last frame
whose first roll is a strike and whose lookahead rolls are absent, and that
frame has `isComplete = false`. -/
theorem strike_without_lookahead_incomplete :
    (mkScoringFrameList [10] 10 10).scoringFrames
      = [⟨some 10, none, none, false, 0, 10⟩]
    ∧ (ScoringFrame.mk (some 10) none none false 0 10).isFirstRollStrike = true
    ∧ (ScoringFrame.mk (some 10) none none false 0 10).isComplete = false := by
  decide

/-- C5 amended: a non-last frame whose first roll equals `valueForStrike` has
`isComplete = true` exactly when both lookahead rolls are present; while a
lookahead roll is still absent the frame is incomplete. -/
theorem strike_complete_iff_lookahead (sf : ScoringFrame)
    (hl : sf.isLastFrame = false) (hs : sf.roll1 = some sf.valueForStrike) :
    sf.isComplete = (sf.roll2.isSome && sf.roll3.isSome) := by
  have hstrike : sf.isFirstRollStrike = true := by
    simp [ScoringFrame.isFirstRollStrike, hs]
  have hspare : sf.isSecondRollSpare = false := by
    simp [ScoringFrame.isSecondRollSpare, hstrike]
  unfold ScoringFrame.isComplete
  rw [hstrike, hl]
  cases h2 : sf.roll2.isSome <;> cases h3 : sf.roll3.isSome <;> simp [hspare]

/-- Witness for `strike_complete_iff_lookahead` at the counterexample frame. -/
theorem strike_complete_iff_lookahead_w :
    (ScoringFrame.mk (some 10) none none false 0 10).isComplete
      = ((none : Option Int).isSome && (none : Option Int).isSome) :=
  strike_complete_iff_lookahead ⟨some 10, none, none, false, 0, 10⟩ rfl rfl

/-- C6: with the default configuration, after rolls `[5, 5, 3]` frame 1 is a
spare frame, complete, with `runningScore = 13` and display score `"13"`;
after only `[5, 5]` frame 1 is incomplete and its display score is empty. -/
theorem spare_completion_at_third_roll :
    ((mkScoringFrameList [5, 5, 3] 10 10).scoringFrames.head?.map
      (fun f => (f.isSecondRollSpare, f.isComplete, f.runningScore))) = some (true, true, 13)
    ∧ ((Game.addAll defaultGame [5, 5, 3]).map (fun g =>
        ((g.processRolls).1.displayFrames.head?.map DisplayFrame.score))) = some (some "13")
    ∧ ((mkScoringFrameList [5, 5] 10 10).scoringFrames.head?.map
      ScoringFrame.isComplete) = some false
    ∧ ((Game.addAll defaultGame [5, 5]).map (fun g =>
        ((g.processRolls).1.displayFrames.head?.map DisplayFrame.score))) = some (some "") := by
  decide

/-- C2: `Game.addRoll(value)` throws exactly when the game is already complete
(`remainingPins = 0`), or the value is not a number, or it lies outside
`[0, remainingPins]`; whenever it throws, the game object — its roll history
included — is unchanged; when it succeeds, the roll is appended to the history
and the accepted numeric value is returned. -/
theorem addRoll_rejects_invalid (g : Game) (x : Option Int) :
    ((∃ e, (g.addRoll x).2 = Except.error e) ↔
      (g.remainingPins = 0 ∨ x = none ∨
        ∃ v, x = some v ∧ ¬(0 ≤ v ∧ v ≤ g.remainingPins)))
    ∧ (∀ e, (g.addRoll x).2 = Except.error e → (g.addRoll x).1 = g)
    ∧ (∀ v, (g.addRoll x).2 = Except.ok v →
        x = some v ∧ (g.addRoll x).1.rolls = g.rolls ++ [v]) := by
  by_cases h0 : g.remainingPins = 0
  · have hr : g.addRoll x = (g, Except.error RollError.gameEnded) := by
      unfold Game.addRoll
      rw [if_pos (by simp [h0])]
    rw [hr]
    exact ⟨by simp [h0], fun e _ => rfl, fun v hv => by cases hv⟩
  · have hne : (g.remainingPins == 0) ≠ true := by simp [h0]
    cases x with
    | none =>
      have hr : g.addRoll none = (g, Except.error RollError.notANumber) := by
        unfold Game.addRoll
        rw [if_neg hne]
      rw [hr]
      exact ⟨by simp, fun e _ => rfl, fun v hv => by cases hv⟩
    | some v =>
      by_cases hv : v ≤ g.remainingPins ∧ 0 ≤ v
      · have hr : g.addRoll (some v) =
            (({ g with rolls := g.rolls ++ [v] } : Game).processRollsToScoringFrames.2,
             Except.ok v) := by
          unfold Game.addRoll
          rw [if_neg hne]
          show (if (decide (v ≤ g.remainingPins) && decide (0 ≤ v)) = true then _ else _) = _
          rw [if_pos (by simp [hv.1, hv.2])]
        rw [hr]
        refine ⟨?_, ?_, ?_⟩
        · constructor
          · rintro ⟨e, he⟩; cases he
          · rintro (h | h | ⟨w, hw, hnot⟩)
            · exact absurd h h0
            · cases h
            · cases hw
              exact absurd ⟨hv.2, hv.1⟩ hnot
        · intro e he
          cases he
        · intro w hw
          cases hw
          exact ⟨rfl, by simp [Game.processRollsToScoringFrames]⟩
      · have hr : g.addRoll (some v) = (g, Except.error RollError.outOfRange) := by
          unfold Game.addRoll
          rw [if_neg hne]
          show (if (decide (v ≤ g.remainingPins) && decide (0 ≤ v)) = true then _ else _) = _
          rw [if_neg (by rcases not_and_or.mp hv with h | h <;> simp [h])]
        rw [hr]
        refine ⟨?_, fun e _ => rfl, fun w hw => by cases hw⟩
        constructor
        · intro _
          exact Or.inr (Or.inr ⟨v, rfl, fun ⟨ha, hb⟩ => hv ⟨hb, ha⟩⟩)
        · intro _
          exact ⟨RollError.outOfRange, rfl⟩

/-- Witness for `addRoll_rejects_invalid`: on the fresh default game, the
over-range roll 11 is rejected and the game is unchanged. -/
theorem addRoll_rejects_invalid_w :
    (Game.addRoll defaultGame (some 11)).1 = defaultGame
    ∧ (∃ e, (Game.addRoll defaultGame (some 11)).2 = Except.error e) := by
  have h := addRoll_rejects_invalid defaultGame (some 11)
  refine ⟨h.2.1 RollError.outOfRange (by decide), ?_⟩
  exact h.1.mpr (Or.inr (Or.inr ⟨11, rfl, by decide⟩))

/-- A display frame derived from a placeholder scoring frame (all rolls
absent) has every slot and the score blank, whatever the glyphs. -/
theorem placeholder_display_blank (vfs : Int) (nof : Nat) (i : Nat)
    (sd sp zd : String) :
    (mkDisplayFrame (placeholderFrame vfs nof i) sd sp zd).isBlank = true := by
  have h : ∀ b : Bool,
      (mkDisplayFrame ⟨none, none, none, b, 0, vfs⟩ sd sp zd).isBlank = true := by
    intro b; cases b <;> rfl
  exact h _

/-- C7: after `newGame()` (history cleared, `remainingPins` restored to the
strike value, game-over flag cleared), `processRolls()` returns exactly
`numberOfFrames` placeholder display frames, each with all three slots and
the score string empty. -/
theorem newGame_blank_scorecard (g : Game) :
    ((g.newGame).processRolls).1.displayFrames.length = g.numberOfFrames
    ∧ ((g.newGame).processRolls).1.displayFrames.all DisplayFrame.isBlank = true := by
  unfold Game.newGame Game.processRolls Game.processRollsToScoringFrames
    mkScoringFrameList mkDisplayFrameList
  simp only [buildFrames, List.map_nil, List.length_nil, List.nil_append,
    Nat.sub_zero, List.all_eq_true, List.mem_map, List.length_map,
    List.length_range']
  refine ⟨by trivial, ?_⟩
  rintro b ⟨i, -, rfl⟩
  exact placeholder_display_blank _ _ _ _ _ _

/-- C8: in the core module's display projection, every non-last frame whose
first roll is a strike shows an empty first slot and the strike glyph in the
second slot; and a thrown roll of zero in a displayed slot (first or second
slot of a non-last frame, no mark involved) renders the zero glyph rather than
the digit character. -/
theorem strike_slot_and_zero_glyph (sf : ScoringFrame) (sd sp zd : String)
    (hl : sf.isLastFrame = false) :
    (sf.isFirstRollStrike = true →
      (mkDisplayFrame sf sd sp zd).slot1 = ""
      ∧ (mkDisplayFrame sf sd sp zd).slot2 = sd)
    ∧ (sf.isFirstRollStrike = false → sf.roll1 = some 0 →
        (mkDisplayFrame sf sd sp zd).slot1 = zd)
    ∧ (sf.isFirstRollStrike = false → sf.roll2 = some 0 →
        (mkDisplayFrame sf sd sp zd).slot2 = zd) := by
  unfold mkDisplayFrame
  rw [hl]
  refine ⟨fun hs => ?_, fun hs h1 => ?_, fun hs h2 => ?_⟩
  · simp [hs]
  · simp [hs, h1]
  · have hspare : sf.isSecondRollSpare = false := by
      unfold ScoringFrame.isSecondRollSpare
      cases hr1 : sf.roll1 with
      | none => simp [hr1]
      | some a =>
        have : ¬(a = sf.valueForStrike) := by
          intro hEq
          rw [ScoringFrame.isFirstRollStrike, hr1, hEq] at hs
          simp at hs
        simp [hr1, h2, this]
    simp [hs, hspare, h2]

/-- Witness for `strike_slot_and_zero_glyph` at a strike frame and a
zero-zero frame with the default glyphs. -/
theorem strike_slot_and_zero_glyph_w :
    ((mkDisplayFrame ⟨some 10, some 3, none, false, 0, 10⟩ "X" "/" "-").slot1 = ""
      ∧ (mkDisplayFrame ⟨some 10, some 3, none, false, 0, 10⟩ "X" "/" "-").slot2 = "X")
    ∧ (mkDisplayFrame ⟨some 0, some 0, none, false, 0, 10⟩ "X" "/" "-").slot1 = "-"
    ∧ (mkDisplayFrame ⟨some 0, some 0, none, false, 0, 10⟩ "X" "/" "-").slot2 = "-" :=
  ⟨(strike_slot_and_zero_glyph ⟨some 10, some 3, none, false, 0, 10⟩ "X" "/" "-" rfl).1
      (by decide),
   (strike_slot_and_zero_glyph ⟨some 0, some 0, none, false, 0, 10⟩ "X" "/" "-" rfl).2.1
      (by decide) rfl,
   (strike_slot_and_zero_glyph ⟨some 0, some 0, none, false, 0, 10⟩ "X" "/" "-" rfl).2.2
      (by decide) rfl⟩

/-- C9 counterexample: `NaN` is a numeric input (`typeof NaN == 'number'`)
lying outside `[0, 1]`, yet the ability-level setter does not raise — both
range comparisons are false for `NaN` — and stores it. -/
theorem ability_setter_nan_accepted :
    (¬ ∃ q : ℚ, JSNum.nan = JSNum.num q ∧ 0 ≤ q ∧ q ≤ 1)
    ∧ (RandomRoller.setPctToHitRemainingPins ⟨JSNum.num 0⟩ (some JSNum.nan)).2
        = Except.ok ()
    ∧ (RandomRoller.setPctToHitRemainingPins ⟨JSNum.num 0⟩ (some JSNum.nan)).1
        = ⟨JSNum.nan⟩ := by
  refine ⟨?_, rfl, rfl⟩
  rintro ⟨q, hq, -, -⟩
  cases hq

/-- C9 amended: the ability-level setter raises `InvalidConfiguration` for
every non-numeric input and for every numeric input that compares below 0 or
above 1 (`NaN` compares neither way, so it is accepted and stored); in every
failing case the stored ability value is retained unchanged; every numeric
input within `[0, 1]` is stored, and for non-`NaN` numbers the comparison
failure is exactly membership in `[0, 1]`. -/
theorem ability_setter_amended (rr : RandomRoller) (x : Option JSNum) :
    (x = none →
      rr.setPctToHitRemainingPins x = (rr, Except.error ConfigError.notNumber))
    ∧ (∀ v, x = some v → (v.ltc 0 || v.gtc 1) = true →
        rr.setPctToHitRemainingPins x = (rr, Except.error ConfigError.outOfRange))
    ∧ (∀ v, x = some v → (v.ltc 0 || v.gtc 1) = false →
        rr.setPctToHitRemainingPins x = (⟨v⟩, Except.ok ()))
    ∧ (∀ q : ℚ, ((JSNum.num q).ltc 0 || (JSNum.num q).gtc 1) = false ↔ 0 ≤ q ∧ q ≤ 1)
    ∧ ((JSNum.nan.ltc 0 || JSNum.nan.gtc 1) = false) := by
  refine ⟨?_, ?_, ?_, ?_, rfl⟩
  · rintro rfl; rfl
  · rintro v rfl hcmp
    unfold RandomRoller.setPctToHitRemainingPins
    show (if (v.ltc 0 || v.gtc 1) = true then _ else _) = _
    rw [if_pos hcmp]
  · rintro v rfl hcmp
    unfold RandomRoller.setPctToHitRemainingPins
    show (if (v.ltc 0 || v.gtc 1) = true then _ else _) = _
    rw [if_neg (by rw [hcmp]; exact Bool.false_ne_true)]
  · intro q
    simp [JSNum.ltc, JSNum.gtc, not_lt]

/-- Witness for `ability_setter_amended`: 2 is rejected with the object
unchanged; 1 is stored. -/
theorem ability_setter_amended_w :
    RandomRoller.setPctToHitRemainingPins ⟨JSNum.num 0⟩ (some (JSNum.num 2))
      = (⟨JSNum.num 0⟩, Except.error ConfigError.outOfRange)
    ∧ RandomRoller.setPctToHitRemainingPins ⟨JSNum.num 0⟩ (some (JSNum.num 1))
      = (⟨JSNum.num 1⟩, Except.ok ()) :=
  ⟨(ability_setter_amended ⟨JSNum.num 0⟩ (some (JSNum.num 2))).2.1 (JSNum.num 2) rfl
      (by decide),
   (ability_setter_amended ⟨JSNum.num 0⟩ (some (JSNum.num 1))).2.2.1 (JSNum.num 1) rfl
      (by decide)⟩

theorem buildFrames_nil (vfs : Int) (nof : Nat) (fb : Nat) (ss : Int) :
    buildFrames vfs nof [] fb ss = [] := rfl

theorem buildFrames_strike_last (vfs : Int) (nof : Nat) (roll : Int) (rest : List Int)
    (fb : Nat) (ss : Int) (hs : (roll == vfs) = true) (hl : isLastFlag nof fb = true) :
    buildFrames vfs nof (roll :: rest) fb ss =
      [⟨some roll, rest.head?, rest.tail.head?, true, ss, vfs⟩] := by
  cases rest with
  | nil => simp [buildFrames, hs, hl]
  | cons r2 rest2 => simp [buildFrames, hs, hl]

theorem buildFrames_strike (vfs : Int) (nof : Nat) (roll : Int) (rest : List Int)
    (fb : Nat) (ss : Int) (hs : (roll == vfs) = true) (hl : isLastFlag nof fb = false) :
    buildFrames vfs nof (roll :: rest) fb ss =
      ⟨some roll, rest.head?, rest.tail.head?, false, ss, vfs⟩ ::
        buildFrames vfs nof rest (fb + 1)
          (ScoringFrame.runningScore ⟨some roll, rest.head?, rest.tail.head?, false, ss, vfs⟩) := by
  cases rest with
  | nil => simp [buildFrames, hs, hl]
  | cons r2 rest2 => simp [buildFrames, hs, hl]

theorem single_roll_incomplete (vfs : Int) (b : Bool) (roll : Int) (ss : Int) :
    (⟨some roll, none, none, b, ss, vfs⟩ : ScoringFrame).isComplete = false := by
  simp [ScoringFrame.isComplete, ScoringFrame.isFirstRollStrike,
    ScoringFrame.isSecondRollSpare, ScoringFrame.isSecondRollStrike]

theorem buildFrames_single (vfs : Int) (nof : Nat) (roll : Int)
    (fb : Nat) (ss : Int) (hs : (roll == vfs) = false) :
    buildFrames vfs nof [roll] fb ss =
      [⟨some roll, none, none, isLastFlag nof fb, ss, vfs⟩] := by
  simp [buildFrames, hs, overflowCheck]

theorem buildFrames_overflow (vfs : Int) (nof : Nat) (roll r2 : Int) (rest2 : List Int)
    (fb : Nat) (ss : Int) (hs : (roll == vfs) = false) (hov : vfs < roll + r2) :
    buildFrames vfs nof (roll :: r2 :: rest2) fb ss =
      ⟨some roll, none, none, isLastFlag nof fb, ss, vfs⟩ ::
        buildFrames vfs nof (r2 :: rest2) (fb + 1)
          (ScoringFrame.runningScore ⟨some roll, none, none, isLastFlag nof fb, ss, vfs⟩) := by
  have hovc : overflowCheck vfs roll (some r2) = true := by
    simp [overflowCheck]; omega
  simp [buildFrames, hs, hovc, single_roll_incomplete]

theorem buildFrames_spare (vfs : Int) (nof : Nat) (roll r2 : Int) (rest2 : List Int)
    (fb : Nat) (ss : Int) (hs : (roll == vfs) = false) (hsp : roll + r2 = vfs) :
    buildFrames vfs nof (roll :: r2 :: rest2) fb ss =
      ⟨some roll, some r2, rest2.head?, isLastFlag nof fb, ss, vfs⟩ ::
        (if isLastFlag nof fb &&
            (⟨some roll, some r2, rest2.head?, isLastFlag nof fb, ss, vfs⟩ :
              ScoringFrame).isComplete then []
         else buildFrames vfs nof rest2 (fb + 1)
           (ScoringFrame.runningScore
             ⟨some roll, some r2, rest2.head?, isLastFlag nof fb, ss, vfs⟩)) := by
  have hovc : overflowCheck vfs roll (some r2) = false := by
    simp [overflowCheck]; omega
  simp [buildFrames, hs, hovc, hsp]

theorem buildFrames_open (vfs : Int) (nof : Nat) (roll r2 : Int) (rest2 : List Int)
    (fb : Nat) (ss : Int) (hs : (roll == vfs) = false) (hlt : roll + r2 < vfs) :
    buildFrames vfs nof (roll :: r2 :: rest2) fb ss =
      ⟨some roll, some r2, none, isLastFlag nof fb, ss, vfs⟩ ::
        (if isLastFlag nof fb &&
            (⟨some roll, some r2, none, isLastFlag nof fb, ss, vfs⟩ :
              ScoringFrame).isComplete then []
         else buildFrames vfs nof rest2 (fb + 1)
           (ScoringFrame.runningScore
             ⟨some roll, some r2, none, isLastFlag nof fb, ss, vfs⟩)) := by
  have hovc : overflowCheck vfs roll (some r2) = false := by
    simp [overflowCheck]; omega
  have hne : ¬ (roll + r2 = vfs) := by omega
  simp [buildFrames, hs, hovc, hne]

theorem mem_of_head?_eq {α : Type} {l : List α} {a : α} (h : l.head? = some a) :
    a ∈ l := by
  cases l with
  | nil => cases h
  | cons x xs =>
    simp at h
    exact h ▸ List.mem_cons_self _ _

theorem mem_of_tail_head?_eq {α : Type} {l : List α} {a : α} (h : l.tail.head? = some a) :
    a ∈ l := by
  cases l with
  | nil => cases h
  | cons x xs => exact List.mem_cons_of_mem _ (mem_of_head?_eq h)

theorem mem_of_getLast?_eq {α : Type} {l : List α} {a : α} (h : l.getLast? = some a) :
    a ∈ l := by
  obtain ⟨hne, heq⟩ := List.mem_getLast?_eq_getLast h
  rw [heq]
  exact List.getLast_mem hne

/-- Every frame the scan builds draws its slot values from the roll list and
carries the configured strike value. -/
theorem buildFrames_frame_src (vfs : Int) (nof : Nat) :
    ∀ (n : Nat) (rolls : List Int), rolls.length ≤ n →
      ∀ (fb : Nat) (ss : Int), ∀ sf ∈ buildFrames vfs nof rolls fb ss,
        sf.valueForStrike = vfs ∧
        (∀ r, sf.roll1 = some r → r ∈ rolls) ∧
        (∀ r, sf.roll2 = some r → r ∈ rolls) ∧
        (∀ r, sf.roll3 = some r → r ∈ rolls) := by
  intro n
  induction n with
  | zero =>
    intro rolls hlen fb ss sf hmem
    rw [List.length_eq_zero.mp (Nat.le_zero.mp hlen)] at hmem
    cases hmem
  | succ n ih =>
    intro rolls hlen fb ss sf hmem
    match rolls, hlen with
    | [], _ => cases hmem
    | roll :: rest, hlen =>
      have hrest : rest.length ≤ n := Nat.le_of_succ_le_succ hlen
      by_cases hs : (roll == vfs) = true
      · by_cases hl : isLastFlag nof fb = true
        · rw [buildFrames_strike_last vfs nof roll rest fb ss hs hl] at hmem
          rcases List.mem_cons.mp hmem with rfl | habs
          · refine ⟨rfl, ?_, ?_, ?_⟩ <;> intro r hr
            · simp at hr; exact hr ▸ List.mem_cons_self _ _
            · have hr2 : rest.head? = some r := hr
              exact List.mem_cons_of_mem _ (mem_of_head?_eq hr2)
            · have hr3 : rest.tail.head? = some r := hr
              exact List.mem_cons_of_mem _ (mem_of_tail_head?_eq hr3)
          · cases habs
        · rw [buildFrames_strike vfs nof roll rest fb ss hs
            (Bool.not_eq_true _ ▸ hl)] at hmem
          rcases List.mem_cons.mp hmem with rfl | hmem2
          · refine ⟨rfl, ?_, ?_, ?_⟩ <;> intro r hr
            · simp at hr; exact hr ▸ List.mem_cons_self _ _
            · have hr2 : rest.head? = some r := hr
              exact List.mem_cons_of_mem _ (mem_of_head?_eq hr2)
            · have hr3 : rest.tail.head? = some r := hr
              exact List.mem_cons_of_mem _ (mem_of_tail_head?_eq hr3)
          · have := ih rest hrest (fb + 1) _ sf hmem2
            exact ⟨this.1, fun r hr => List.mem_cons_of_mem _ (this.2.1 r hr),
              fun r hr => List.mem_cons_of_mem _ (this.2.2.1 r hr),
              fun r hr => List.mem_cons_of_mem _ (this.2.2.2 r hr)⟩
      · have hs' : (roll == vfs) = false := Bool.not_eq_true _ ▸ hs
        cases rest with
        | nil =>
          rw [buildFrames_single vfs nof roll fb ss hs'] at hmem
          rcases List.mem_cons.mp hmem with rfl | habs
          · refine ⟨rfl, ?_, ?_, ?_⟩ <;> intro r hr
            · simp at hr; exact hr ▸ List.mem_cons_self _ _
            · cases hr
            · cases hr
          · cases habs
        | cons r2 rest2 =>
          have hrest2 : rest2.length ≤ n := by
            simp at hrest; omega
          rcases lt_trichotomy (roll + r2) vfs with hc | hc | hc
          · -- open frame
            rw [buildFrames_open vfs nof roll r2 rest2 fb ss hs' hc] at hmem
            rcases List.mem_cons.mp hmem with rfl | hmem2
            · refine ⟨rfl, ?_, ?_, ?_⟩ <;> intro r hr
              · simp at hr; exact hr ▸ List.mem_cons_self _ _
              · simp at hr; exact hr ▸ List.mem_cons_of_mem _ (List.mem_cons_self _ _)
              · cases hr
            · split at hmem2
              · cases hmem2
              · have := ih rest2 hrest2 (fb + 1) _ sf hmem2
                refine ⟨this.1, ?_, ?_, ?_⟩ <;> intro r hr
                · exact List.mem_cons_of_mem _ (List.mem_cons_of_mem _ (this.2.1 r hr))
                · exact List.mem_cons_of_mem _ (List.mem_cons_of_mem _ (this.2.2.1 r hr))
                · exact List.mem_cons_of_mem _ (List.mem_cons_of_mem _ (this.2.2.2 r hr))
          · -- spare frame
            rw [buildFrames_spare vfs nof roll r2 rest2 fb ss hs' hc] at hmem
            rcases List.mem_cons.mp hmem with rfl | hmem2
            · refine ⟨rfl, ?_, ?_, ?_⟩ <;> intro r hr
              · simp at hr; exact hr ▸ List.mem_cons_self _ _
              · simp at hr; exact hr ▸ List.mem_cons_of_mem _ (List.mem_cons_self _ _)
              · have hr3 : rest2.head? = some r := hr
                exact List.mem_cons_of_mem _ (List.mem_cons_of_mem _ (mem_of_head?_eq hr3))
            · split at hmem2
              · cases hmem2
              · have := ih rest2 hrest2 (fb + 1) _ sf hmem2
                refine ⟨this.1, ?_, ?_, ?_⟩ <;> intro r hr
                · exact List.mem_cons_of_mem _ (List.mem_cons_of_mem _ (this.2.1 r hr))
                · exact List.mem_cons_of_mem _ (List.mem_cons_of_mem _ (this.2.2.1 r hr))
                · exact List.mem_cons_of_mem _ (List.mem_cons_of_mem _ (this.2.2.2 r hr))
          · -- overflow
            rw [buildFrames_overflow vfs nof roll r2 rest2 fb ss hs' hc] at hmem
            rcases List.mem_cons.mp hmem with rfl | hmem2
            · refine ⟨rfl, ?_, ?_, ?_⟩ <;> intro r hr
              · simp at hr; exact hr ▸ List.mem_cons_self _ _
              · cases hr
              · cases hr
            · have := ih (r2 :: rest2) hrest (fb + 1) _ sf hmem2
              exact ⟨this.1, fun r hr => List.mem_cons_of_mem _ (this.2.1 r hr),
                fun r hr => List.mem_cons_of_mem _ (this.2.2.1 r hr),
                fun r hr => List.mem_cons_of_mem _ (this.2.2.2 r hr)⟩

/-- A frame whose slot rolls all lie in `[0, vfs]` has `remainingPins` in
`[0, vfs]` as well. -/
theorem frame_remainingPins_bounds (vfs : Int) (sf : ScoringFrame)
    (hvfs : sf.valueForStrike = vfs) (h0 : 0 ≤ vfs)
    (h1 : ∀ r, sf.roll1 = some r → 0 ≤ r ∧ r ≤ vfs)
    (h2 : ∀ r, sf.roll2 = some r → 0 ≤ r ∧ r ≤ vfs) :
    0 ≤ sf.remainingPins ∧ sf.remainingPins ≤ vfs := by
  unfold ScoringFrame.remainingPins
  rw [hvfs]
  split_ifs with hA hB hC hD hE hF
  · omega
  · omega
  · omega
  · omega
  · omega
  · -- strike with second roll present: vfs - roll2
    have hstrike : sf.isFirstRollStrike = true := (Bool.and_eq_true _ _ |>.mp hF).1
    have hr2 : sf.roll2.isNone = false := by
      cases hval : sf.roll2.isNone
      · rfl
      · exact absurd (Bool.and_eq_true _ _ |>.mpr ⟨hstrike, hval⟩) hD
    cases hr2v : sf.roll2 with
    | none => rw [hr2v] at hr2; cases hr2
    | some r =>
      have := h2 r hr2v
      simp only [Option.getD_some]
      omega
  · -- two ordinary rolls: vfs - roll1
    have hr1 : sf.roll1.isNone = false := by
      cases hval : sf.roll1.isNone
      · rfl
      · exact absurd hval hB
    cases hr1v : sf.roll1 with
    | none => rw [hr1v] at hr1; cases hr1
    | some r =>
      have := h1 r hr1v
      simp only [Option.getD_some]
      omega

theorem framesRemaining_eq_none (vfs : Int) (nof fb : Nat) (fs : List ScoringFrame)
    (h : fs.getLast? = none) : framesRemaining vfs nof fb fs = vfs := by
  unfold framesRemaining
  rw [h]

theorem framesRemaining_eq_some (vfs : Int) (nof fb : Nat) (fs : List ScoringFrame)
    (m : ScoringFrame) (h : fs.getLast? = some m) :
    framesRemaining vfs nof fb fs =
      (if (fb + fs.length == nof) && m.isComplete then 0
       else if m.isComplete then vfs else m.remainingPins) := by
  unfold framesRemaining
  rw [h]

/-- The list-level remaining-pins value is bounded by `[0, vfs]` whenever every
frame's own value is. -/
theorem framesRemaining_bounds (vfs : Int) (nof fb : Nat) (fs : List ScoringFrame)
    (h0 : 0 ≤ vfs)
    (hfs : ∀ sf ∈ fs, 0 ≤ sf.remainingPins ∧ sf.remainingPins ≤ vfs) :
    0 ≤ framesRemaining vfs nof fb fs ∧ framesRemaining vfs nof fb fs ≤ vfs := by
  cases h : fs.getLast? with
  | none => rw [framesRemaining_eq_none vfs nof fb fs h]; omega
  | some m =>
    have hm := hfs m (mem_of_getLast?_eq h)
    rw [framesRemaining_eq_some vfs nof fb fs m h]
    split_ifs <;> omega

/-- The remaining pins reported by a freshly built `ScoringFrameList` lie in
`[0, vfs]` whenever every roll does. -/
theorem mkScoringFrameList_remainingPins_bounds (rolls : List Int) (vfs : Int)
    (nof : Nat) (h0 : 0 ≤ vfs) (hb : ∀ r ∈ rolls, 0 ≤ r ∧ r ≤ vfs) :
    0 ≤ (mkScoringFrameList rolls vfs nof).remainingPins ∧
      (mkScoringFrameList rolls vfs nof).remainingPins ≤ vfs := by
  show 0 ≤ framesRemaining vfs nof 0 (buildFrames vfs nof rolls 0 0) ∧ _
  refine framesRemaining_bounds vfs nof 0 _ h0 ?_
  intro sf hsf
  have hsrc := buildFrames_frame_src vfs nof rolls.length rolls (le_refl _) 0 0 sf hsf
  exact frame_remainingPins_bounds vfs sf hsrc.1 h0
    (fun r hr => hb r (hsrc.2.1 r hr))
    (fun r hr => hb r (hsrc.2.2.1 r hr))

/-- Anatomy of a successful `Game.addRoll`: the roll was validated against the
pre-state, and the post-state is the pre-state with the roll appended and
`remainingPins` / `isGameOver` recomputed from a fresh parse. -/
theorem addRoll_ok_anatomy (g : Game) (v : Int) (g' : Game) (w : Int)
    (h : g.addRoll (some v) = (g', Except.ok w)) :
    w = v ∧ 0 ≤ v ∧ v ≤ g.remainingPins ∧ g.remainingPins ≠ 0 ∧
    g' = { g with
           rolls := g.rolls ++ [v]
           remainingPins := (mkScoringFrameList (g.rolls ++ [v]) g.valueForStrike g.numberOfFrames).remainingPins
           isGameOver := ((mkScoringFrameList (g.rolls ++ [v]) g.valueForStrike g.numberOfFrames).remainingPins == 0) } := by
  by_cases h0 : g.remainingPins = 0
  · have hr : g.addRoll (some v) = (g, Except.error RollError.gameEnded) := by
      unfold Game.addRoll
      rw [if_pos (by simp [h0])]
    rw [hr] at h
    injection h with h1 h2
    cases h2
  · by_cases hv : v ≤ g.remainingPins ∧ 0 ≤ v
    · have hr : g.addRoll (some v) =
          (({ g with rolls := g.rolls ++ [v] } : Game).processRollsToScoringFrames.2,
           Except.ok v) := by
        unfold Game.addRoll
        rw [if_neg (by simp [h0])]
        show (if (decide (v ≤ g.remainingPins) && decide (0 ≤ v)) = true
              then _ else _) = _
        rw [if_pos (by simp [hv.1, hv.2])]
      rw [hr] at h
      injection h with h1 h2
      injection h2 with h2
      refine ⟨h2.symm, hv.2, hv.1, h0, ?_⟩
      rw [← h1]
      rfl
    · have hr : g.addRoll (some v) = (g, Except.error RollError.outOfRange) := by
        unfold Game.addRoll
        rw [if_neg (by simp [h0])]
        show (if (decide (v ≤ g.remainingPins) && decide (0 ≤ v)) = true
              then _ else _) = _
        rw [if_neg (by rcases not_and_or.mp hv with hcase | hcase <;> simp [hcase])]
      rw [hr] at h
      injection h with h1 h2
      cases h2

theorem gameInv_default : gameInv defaultGame :=
  ⟨rfl, rfl, rfl, rfl, rfl, fun r hr => absurd hr (List.not_mem_nil r), rfl, rfl⟩

/-- `Game.addRoll` preserves the game-state invariant, hence so does feeding
any accepted roll list. -/
theorem addAll_preserves_gameInv :
    ∀ (rolls : List Int) (g : Game), gameInv g →
      ∀ g', Game.addAll g rolls = some g' → gameInv g' := by
  intro rolls
  induction rolls with
  | nil =>
    intro g hg g' h
    injection h with h
    exact h ▸ hg
  | cons v rest ih =>
    intro g hg g' h
    unfold Game.addAll at h
    cases hr : g.addRoll (some v) with
    | mk g1 res =>
      rw [hr] at h
      cases res with
      | error e => cases h
      | ok w =>
        obtain ⟨hw, hv0, hvle, hrne, hg1⟩ := addRoll_ok_anatomy g v g1 w hr
        obtain ⟨hvfs, hnof, hsd, hspd, hzd, hroll, hrp, hgo⟩ := hg
        have hrple : g.remainingPins ≤ 10 := by
          rw [hrp]
          exact (mkScoringFrameList_remainingPins_bounds g.rolls 10 10 (by omega) hroll).2
        have hroll1 : ∀ r ∈ g.rolls ++ [v], 0 ≤ r ∧ r ≤ 10 := by
          intro r hrmem
          rcases List.mem_append.mp hrmem with hm | hm
          · exact hroll r hm
          · rcases List.mem_singleton.mp hm with rfl
            exact ⟨hv0, le_trans hvle hrple⟩
        have hinv1 : gameInv g1 := by
          rw [hg1]
          refine ⟨hvfs, hnof, hsd, hspd, hzd, ?_, ?_, ?_⟩
          · exact hroll1
          · simp [hvfs, hnof]
          · simp
        exact ih g1 hinv1 g' h

/-- C10: for every roll history accepted through `Game.addRoll` on the default
game, after construction (`rolls = []`), after the accepting `addRoll` calls,
after `newGame()` and after `processRolls()`, `remainingPins` lies between 0
and `valueForStrike` inclusive and `isGameOver` holds exactly when
`remainingPins` is 0. -/
theorem accepted_remaining_pins_invariant :
    ∀ (rolls : List Int) (g : Game), Game.addAll defaultGame rolls = some g →
      (0 ≤ g.remainingPins ∧ g.remainingPins ≤ g.valueForStrike ∧
        (g.isGameOver = true ↔ g.remainingPins = 0))
      ∧ (0 ≤ (g.newGame).remainingPins ∧
          (g.newGame).remainingPins ≤ g.valueForStrike ∧
          ((g.newGame).isGameOver = true ↔ (g.newGame).remainingPins = 0))
      ∧ (0 ≤ (g.processRolls).2.remainingPins ∧
          (g.processRolls).2.remainingPins ≤ g.valueForStrike ∧
          ((g.processRolls).2.isGameOver = true ↔ (g.processRolls).2.remainingPins = 0)) := by
  intro rolls g h
  obtain ⟨hvfs, hnof, -, -, -, hroll, hrp, hgo⟩ :=
    addAll_preserves_gameInv rolls defaultGame gameInv_default g h
  have hb := mkScoringFrameList_remainingPins_bounds g.rolls 10 10 (by omega) hroll
  refine ⟨⟨?_, ?_, ?_⟩, ⟨?_, ?_, ?_⟩, ⟨?_, ?_, ?_⟩⟩
  · rw [hrp]; exact hb.1
  · rw [hrp, hvfs]; exact hb.2
  · rw [hgo]; exact beq_iff_eq
  · simp [Game.newGame, hvfs]
  · simp [Game.newGame]
  · simp [Game.newGame, hvfs]
  · show 0 ≤ (mkScoringFrameList g.rolls g.valueForStrike g.numberOfFrames).remainingPins
    rw [hvfs, hnof]; exact hb.1
  · show (mkScoringFrameList g.rolls g.valueForStrike g.numberOfFrames).remainingPins ≤ _
    rw [hvfs, hnof]; exact hb.2
  · show ((mkScoringFrameList g.rolls g.valueForStrike g.numberOfFrames).remainingPins == 0) = true ↔ _
    exact beq_iff_eq

/-- Witness for `accepted_remaining_pins_invariant` at the accepted history
`[3, 4]`. -/
theorem accepted_remaining_pins_invariant_w :
    0 ≤ (Game.mk 10 10 "X" "/" "-" [3, 4] 10 false).remainingPins
    ∧ (Game.mk 10 10 "X" "/" "-" [3, 4] 10 false).remainingPins ≤
        (Game.mk 10 10 "X" "/" "-" [3, 4] 10 false).valueForStrike
    ∧ ((Game.mk 10 10 "X" "/" "-" [3, 4] 10 false).isGameOver = true ↔
        (Game.mk 10 10 "X" "/" "-" [3, 4] 10 false).remainingPins = 0) :=
  (accepted_remaining_pins_invariant [3, 4]
    (Game.mk 10 10 "X" "/" "-" [3, 4] 10 false) (by decide)).1

theorem isLastFlag_iff (nof fb : Nat) : isLastFlag nof fb = (fb + 1 == nof) := by
  rw [Bool.eq_iff_iff]
  simp only [isLastFlag, beq_iff_eq]
  omega

theorem foldl_step_ended (vfs : Int) (nof : Nat) (l : List Int) :
    List.foldl (step vfs nof) PState.ended l = PState.ended := by
  induction l with
  | nil => rfl
  | cons v t ih => simpa [step] using ih

theorem buildFrames_cons_ne_nil (vfs : Int) (nof : Nat) (roll : Int) (rest : List Int)
    (fb : Nat) (ss : Int) : buildFrames vfs nof (roll :: rest) fb ss ≠ [] := by
  by_cases hs : (roll == vfs) = true
  · by_cases hl : isLastFlag nof fb = true
    · rw [buildFrames_strike_last vfs nof roll rest fb ss hs hl]; simp
    · rw [buildFrames_strike vfs nof roll rest fb ss hs (Bool.not_eq_true _ ▸ hl)]; simp
  · have hs' : (roll == vfs) = false := Bool.not_eq_true _ ▸ hs
    cases rest with
    | nil => rw [buildFrames_single vfs nof roll fb ss hs']; simp
    | cons r2 rest2 =>
      rcases lt_trichotomy (roll + r2) vfs with hc | hc | hc
      · rw [buildFrames_open vfs nof roll r2 rest2 fb ss hs' hc]; simp
      · rw [buildFrames_spare vfs nof roll r2 rest2 fb ss hs' hc]; simp
      · rw [buildFrames_overflow vfs nof roll r2 rest2 fb ss hs' hc]; simp

theorem framesRemaining_cons (vfs : Int) (nof fb : Nat) (sf : ScoringFrame)
    (fs : List ScoringFrame) (h : fs ≠ []) :
    framesRemaining vfs nof fb (sf :: fs) = framesRemaining vfs nof (fb + 1) fs := by
  obtain ⟨b, fs2, rfl⟩ := List.exists_cons_of_ne_nil h
  unfold framesRemaining
  rw [List.getLast?_cons_cons]
  cases hlast : (b :: fs2).getLast? with
  | none => rfl
  | some m =>
    have hlen : fb + (sf :: b :: fs2).length = (fb + 1) + (b :: fs2).length := by
      simp [List.length_cons]; omega
    rw [hlen]

theorem buildFrames_singleton_incomplete (vfs : Int) (nof : Nat) (a : Int)
    (fb : Nat) (ss : Int) :
    ∀ f ∈ buildFrames vfs nof [a] fb ss, f.isComplete = false := by
  intro f hf
  by_cases hs : (a == vfs) = true
  · by_cases hl : isLastFlag nof fb = true
    · rw [buildFrames_strike_last vfs nof a [] fb ss hs hl] at hf
      rcases List.mem_singleton.mp hf with rfl
      exact single_roll_incomplete vfs true a ss
    · rw [buildFrames_strike vfs nof a [] fb ss hs (Bool.not_eq_true _ ▸ hl)] at hf
      rcases List.mem_cons.mp hf with rfl | hf2
      · exact single_roll_incomplete vfs false a ss
      · cases hf2
  · rw [buildFrames_single vfs nof a fb ss (Bool.not_eq_true _ ▸ hs)] at hf
    rcases List.mem_singleton.mp hf with rfl
    exact single_roll_incomplete vfs _ a ss

/-- The frames built by the scan chain their supporting scores: the first one
carries `ss`, each later one the previous frame's running score. -/
theorem buildFrames_chained (vfs : Int) (nof : Nat) :
    ∀ (n : Nat) (rolls : List Int), rolls.length ≤ n → ∀ (fb : Nat) (ss : Int),
      chainedFrom ss (buildFrames vfs nof rolls fb ss) := by
  intro n
  induction n with
  | zero =>
    intro rolls hlen fb ss
    rw [List.length_eq_zero.mp (Nat.le_zero.mp hlen)]
    exact trivial
  | succ n ih =>
    intro rolls hlen fb ss
    match rolls, hlen with
    | [], _ => exact trivial
    | roll :: rest, hlen =>
      have hrest : rest.length ≤ n := Nat.le_of_succ_le_succ hlen
      by_cases hs : (roll == vfs) = true
      · by_cases hl : isLastFlag nof fb = true
        · rw [buildFrames_strike_last vfs nof roll rest fb ss hs hl]
          exact ⟨rfl, trivial⟩
        · rw [buildFrames_strike vfs nof roll rest fb ss hs (Bool.not_eq_true _ ▸ hl)]
          exact ⟨rfl, ih rest hrest (fb + 1) _⟩
      · have hs' : (roll == vfs) = false := Bool.not_eq_true _ ▸ hs
        cases rest with
        | nil =>
          rw [buildFrames_single vfs nof roll fb ss hs']
          exact ⟨rfl, trivial⟩
        | cons r2 rest2 =>
          have hrest2 : rest2.length ≤ n := by simp at hrest; omega
          rcases lt_trichotomy (roll + r2) vfs with hc | hc | hc
          · rw [buildFrames_open vfs nof roll r2 rest2 fb ss hs' hc]
            refine ⟨rfl, ?_⟩
            split
            · exact trivial
            · exact ih rest2 hrest2 (fb + 1) _
          · rw [buildFrames_spare vfs nof roll r2 rest2 fb ss hs' hc]
            refine ⟨rfl, ?_⟩
            split
            · exact trivial
            · exact ih rest2 hrest2 (fb + 1) _
          · rw [buildFrames_overflow vfs nof roll r2 rest2 fb ss hs' hc]
            exact ⟨rfl, ih (r2 :: rest2) hrest (fb + 1) _⟩

theorem frame_strike_noLook (vfs : Int) (b : Bool) (ss : Int) :
    (⟨some vfs, none, none, b, ss, vfs⟩ : ScoringFrame).isComplete = false ∧
    (⟨some vfs, none, none, b, ss, vfs⟩ : ScoringFrame).remainingPins = vfs := by
  constructor
  · exact single_roll_incomplete vfs b vfs ss
  · simp [ScoringFrame.remainingPins, single_roll_incomplete,
      ScoringFrame.isFirstRollStrike, ScoringFrame.isSecondRollSpare,
      ScoringFrame.isSecondRollStrike]

theorem frame_strike_oneLook_incomplete (vfs a : Int) (b : Bool) (ss : Int) :
    (⟨some vfs, some a, none, b, ss, vfs⟩ : ScoringFrame).isComplete = false := by
  simp [ScoringFrame.isComplete, ScoringFrame.isFirstRollStrike,
    ScoringFrame.isSecondRollSpare, ScoringFrame.isSecondRollStrike]

theorem frame_strike_oneLook_rp_last (vfs a : Int) (ss : Int) :
    (⟨some vfs, some a, none, true, ss, vfs⟩ : ScoringFrame).remainingPins
      = (if (a == vfs) = true then vfs else vfs - a) := by
  by_cases ha : (a == vfs) = true
  · simp [ScoringFrame.remainingPins, frame_strike_oneLook_incomplete,
      ScoringFrame.isFirstRollStrike, ScoringFrame.isSecondRollSpare,
      ScoringFrame.isSecondRollStrike, ha]
  · have ha' : (a == vfs) = false := Bool.not_eq_true _ ▸ ha
    simp [ScoringFrame.remainingPins, frame_strike_oneLook_incomplete,
      ScoringFrame.isFirstRollStrike, ScoringFrame.isSecondRollSpare,
      ScoringFrame.isSecondRollStrike, ha']

theorem frame_strike_twoLook_complete (vfs a c : Int) (b : Bool) (ss : Int) :
    (⟨some vfs, some a, some c, b, ss, vfs⟩ : ScoringFrame).isComplete = true := by
  simp [ScoringFrame.isComplete, ScoringFrame.isFirstRollStrike]

theorem frame_nonstrike_single_rp (vfs r : Int) (b : Bool) (ss : Int)
    (hs : (r == vfs) = false) :
    (⟨some r, none, none, b, ss, vfs⟩ : ScoringFrame).remainingPins = vfs - r := by
  simp [ScoringFrame.remainingPins, single_roll_incomplete,
    ScoringFrame.isFirstRollStrike, ScoringFrame.isSecondRollSpare,
    ScoringFrame.isSecondRollStrike, hs]

theorem frame_spare_pending (vfs r r2 : Int) (b : Bool) (ss : Int)
    (hs : (r == vfs) = false) (hsum : r + r2 = vfs) :
    (⟨some r, some r2, none, b, ss, vfs⟩ : ScoringFrame).isComplete = false ∧
    (⟨some r, some r2, none, b, ss, vfs⟩ : ScoringFrame).remainingPins = vfs := by
  have hspare : (⟨some r, some r2, none, b, ss, vfs⟩ : ScoringFrame).isSecondRollSpare
      = true := by
    simp [ScoringFrame.isSecondRollSpare, ScoringFrame.isFirstRollStrike, hs, hsum]
  constructor
  · simp [ScoringFrame.isComplete, ScoringFrame.isFirstRollStrike,
      ScoringFrame.isSecondRollStrike, hspare, hs]
  · simp [ScoringFrame.remainingPins, ScoringFrame.isComplete,
      ScoringFrame.isFirstRollStrike, ScoringFrame.isSecondRollStrike, hspare, hs]

theorem frame_spare_filled_complete (vfs r r2 c : Int) (b : Bool) (ss : Int)
    (hs : (r == vfs) = false) (hsum : r + r2 = vfs) :
    (⟨some r, some r2, some c, b, ss, vfs⟩ : ScoringFrame).isComplete = true := by
  have hspare : (⟨some r, some r2, some c, b, ss, vfs⟩ : ScoringFrame).isSecondRollSpare
      = true := by
    simp [ScoringFrame.isSecondRollSpare, ScoringFrame.isFirstRollStrike, hs, hsum]
  simp [ScoringFrame.isComplete, ScoringFrame.isFirstRollStrike,
    ScoringFrame.isSecondRollStrike, hspare, hs]

theorem frame_open_complete (vfs r r2 : Int) (b : Bool) (ss : Int)
    (hs : (r == vfs) = false) (hsum : r + r2 < vfs) :
    (⟨some r, some r2, none, b, ss, vfs⟩ : ScoringFrame).isComplete = true := by
  have hnsp : (⟨some r, some r2, none, b, ss, vfs⟩ : ScoringFrame).isSecondRollSpare
      = false := by
    simp [ScoringFrame.isSecondRollSpare, ScoringFrame.isFirstRollStrike, hs]
    omega
  simp [ScoringFrame.isComplete, ScoringFrame.isFirstRollStrike,
    ScoringFrame.isSecondRollStrike, hnsp, hs]

theorem getLast?_single {α : Type} (a : α) : ([a] : List α).getLast? = some a := by
  simp

/-- Frames built from rolls that were each validated against the pins left at
their own position (`validFrom`): the complete frames form a prefix, and the
list-level remaining-pins value equals the abstract frontier's. -/
theorem buildFrames_machine (vfs : Int) (nof : Nat) :
    ∀ (n : Nat) (rolls : List Int), rolls.length ≤ n →
      ∀ (fb : Nat) (ss : Int), fb < nof →
        validFrom vfs nof (PState.fresh fb) rolls →
        frontComplete (buildFrames vfs nof rolls fb ss) ∧
        framesRemaining vfs nof fb (buildFrames vfs nof rolls fb ss)
          = stateRP vfs (List.foldl (step vfs nof) (PState.fresh fb) rolls) := by
  intro n
  induction n with
  | zero =>
    intro rolls hlen fb ss hfb hv
    rw [List.length_eq_zero.mp (Nat.le_zero.mp hlen)]
    exact ⟨trivial, rfl⟩
  | succ n ih =>
    intro rolls hlen fb ss hfb hv
    match rolls, hlen with
    | [], _ => exact ⟨trivial, rfl⟩
    | roll :: rest, hlen =>
      have hrest : rest.length ≤ n := Nat.le_of_succ_le_succ hlen
      obtain ⟨hrpne, hv0, hvle, hvrest⟩ := hv
      rw [List.foldl_cons]
      by_cases hs : (roll == vfs) = true
      · -- strike frame
        have hroll : vfs = roll := by
          have : roll = vfs := by simpa using hs
          exact this.symm
        subst hroll
        by_cases hl : isLastFlag nof fb = true
        · -- strike in the last frame: the scan stops with this frame
          have hnof : (fb + 1 == nof) = true := by rw [← isLastFlag_iff]; exact hl
          have hstep : step vfs nof (PState.fresh fb) vfs = PState.lastS1 := by
            simp [step, hnof]
          rw [hstep, buildFrames_strike_last vfs nof vfs rest fb ss hs hl]
          refine ⟨⟨fun _ g hg => absurd hg (List.not_mem_nil g), trivial⟩, ?_⟩
          rw [framesRemaining_eq_some vfs nof fb _ _ (getLast?_single _)]
          cases rest with
          | nil =>
            simp [(frame_strike_noLook vfs true ss).1,
              (frame_strike_noLook vfs true ss).2, stateRP]
          | cons a rest1 =>
            cases rest1 with
            | nil =>
              simp only [List.head?_cons, List.tail_cons, List.head?_nil,
                List.foldl_cons, List.foldl_nil]
              rw [show step vfs nof PState.lastS1 a = PState.lastS2 a from rfl]
              simp [frame_strike_oneLook_incomplete vfs a true ss,
                frame_strike_oneLook_rp_last vfs a ss, stateRP]
            | cons b rest2 =>
              simp only [List.head?_cons, List.tail_cons, List.foldl_cons]
              rw [show step vfs nof PState.lastS1 a = PState.lastS2 a from rfl,
                show step vfs nof (PState.lastS2 a) b = PState.ended from rfl,
                foldl_step_ended]
              simp [frame_strike_twoLook_complete vfs a b true ss, hnof, stateRP]
        · -- strike in a non-last frame
          have hl2 : isLastFlag nof fb = false := Bool.not_eq_true _ ▸ hl
          have hnof : (fb + 1 == nof) = false := by rw [← isLastFlag_iff]; exact hl2
          have hfb1 : fb + 1 < nof := by
            have hne : fb + 1 ≠ nof := by simpa using hnof
            omega
          have hstep : step vfs nof (PState.fresh fb) vfs = PState.fresh (fb + 1) := by
            simp [step, hnof]
          rw [hstep, buildFrames_strike vfs nof vfs rest fb ss hs hl2]
          rw [hstep] at hvrest
          have IH := ih rest hrest (fb + 1)
            (ScoringFrame.runningScore
              ⟨some vfs, rest.head?, rest.tail.head?, false, ss, vfs⟩) hfb1 hvrest
          cases rest with
          | nil =>
            refine ⟨⟨fun _ g hg => absurd hg (List.not_mem_nil g), trivial⟩, ?_⟩
            rw [show buildFrames vfs nof [] (fb + 1)
                (ScoringFrame.runningScore
                  ⟨some vfs, List.head? [], List.head? (List.tail []), false, ss, vfs⟩)
              = [] from rfl]
            rw [framesRemaining_eq_some vfs nof fb _ _ (getLast?_single _)]
            simp [(frame_strike_noLook vfs false ss).1,
              (frame_strike_noLook vfs false ss).2, stateRP]
          | cons a rest1 =>
            have hne := buildFrames_cons_ne_nil vfs nof a rest1 (fb + 1)
              (ScoringFrame.runningScore
                ⟨some vfs, (a :: rest1).head?, (a :: rest1).tail.head?, false, ss, vfs⟩)
            constructor
            · refine ⟨?_, IH.1⟩
              intro hinc g hg
              cases rest1 with
              | nil => exact buildFrames_singleton_incomplete vfs nof a (fb + 1) _ g hg
              | cons b rest2 =>
                simp only [List.head?_cons, List.tail_cons] at hinc
                rw [frame_strike_twoLook_complete vfs a b false ss] at hinc
                cases hinc
            · rw [framesRemaining_cons vfs nof fb _ _ hne]
              exact IH.2
      · -- non-strike first roll
        have hs2 : (roll == vfs) = false := Bool.not_eq_true _ ▸ hs
        have hstep : step vfs nof (PState.fresh fb) roll = PState.half fb roll := by
          simp [step, hs2]
        rw [hstep]
        rw [hstep] at hvrest
        cases rest with
        | nil =>
          rw [buildFrames_single vfs nof roll fb ss hs2]
          refine ⟨⟨fun _ g hg => absurd hg (List.not_mem_nil g), trivial⟩, ?_⟩
          rw [framesRemaining_eq_some vfs nof fb _ _ (getLast?_single _)]
          simp [single_roll_incomplete,
            frame_nonstrike_single_rp vfs roll (isLastFlag nof fb) ss hs2, stateRP]
        | cons r2 rest2 =>
          obtain ⟨hrpne2, hv02, hvle2, hvrest2⟩ := hvrest
          have hrest2 : rest2.length ≤ n := by
            simp only [List.length_cons] at hlen
            omega
          rw [List.foldl_cons]
          rcases lt_trichotomy (roll + r2) vfs with hc | hc | hc
          · -- open frame
            have hbne : (roll + r2 == vfs) = false := by simp; omega
            rw [buildFrames_open vfs nof roll r2 rest2 fb ss hs2 hc]
            by_cases hl : isLastFlag nof fb = true
            · have hnof : (fb + 1 == nof) = true := by rw [← isLastFlag_iff]; exact hl
              have hcomp := frame_open_complete vfs roll r2 true ss hs2 hc
              have hstep2 : step vfs nof (PState.half fb roll) r2 = PState.ended := by
                simp [step, hbne, hc, hnof]
              rw [hl, hstep2, foldl_step_ended, hcomp]
              simp only [Bool.and_self, if_true]
              refine ⟨⟨fun _ g hg => absurd hg (List.not_mem_nil g), trivial⟩, ?_⟩
              rw [framesRemaining_eq_some vfs nof fb _ _ (getLast?_single _)]
              simp [hcomp, hnof, stateRP]
            · have hl2 : isLastFlag nof fb = false := Bool.not_eq_true _ ▸ hl
              have hnof : (fb + 1 == nof) = false := by rw [← isLastFlag_iff]; exact hl2
              have hfb1 : fb + 1 < nof := by
                have hne : fb + 1 ≠ nof := by simpa using hnof
                omega
              have hcomp := frame_open_complete vfs roll r2 false ss hs2 hc
              have hstep2 : step vfs nof (PState.half fb roll) r2
                  = PState.fresh (fb + 1) := by
                simp [step, hbne, hc, hnof]
              rw [hl2, hstep2]
              rw [hstep2] at hvrest2
              simp only [Bool.false_and, Bool.false_eq_true, if_false]
              have IH := ih rest2 hrest2 (fb + 1)
                (ScoringFrame.runningScore
                  ⟨some roll, some r2, none, false, ss, vfs⟩) hfb1 hvrest2
              cases rest2 with
              | nil =>
                refine ⟨⟨fun _ g hg => absurd hg (List.not_mem_nil g), trivial⟩, ?_⟩
                rw [show buildFrames vfs nof [] (fb + 1)
                    (ScoringFrame.runningScore
                      ⟨some roll, some r2, none, false, ss, vfs⟩) = [] from rfl]
                rw [framesRemaining_eq_some vfs nof fb _ _ (getLast?_single _)]
                simp [hcomp, hnof, stateRP]
              | cons c more =>
                have hne := buildFrames_cons_ne_nil vfs nof c more (fb + 1)
                  (ScoringFrame.runningScore
                    ⟨some roll, some r2, none, false, ss, vfs⟩)
                refine ⟨⟨?_, IH.1⟩, ?_⟩
                · intro hinc g hg
                  rw [hcomp] at hinc
                  cases hinc
                · rw [framesRemaining_cons vfs nof fb _ _ hne]
                  exact IH.2
          · -- spare frame
            have hbeq : (roll + r2 == vfs) = true := by simpa using hc
            rw [buildFrames_spare vfs nof roll r2 rest2 fb ss hs2 hc]
            by_cases hl : isLastFlag nof fb = true
            · have hnof : (fb + 1 == nof) = true := by rw [← isLastFlag_iff]; exact hl
              have hstep2 : step vfs nof (PState.half fb roll) r2
                  = PState.lastSpare := by
                simp [step, hbeq, hnof]
              rw [hl, hstep2]
              cases rest2 with
              | nil =>
                have hpend := frame_spare_pending vfs roll r2 true ss hs2 hc
                simp only [List.head?_nil, hpend.1, Bool.and_false,
                  Bool.false_eq_true, if_false]
                refine ⟨⟨fun _ g hg => absurd hg (List.not_mem_nil g), trivial⟩, ?_⟩
                rw [show buildFrames vfs nof [] (fb + 1)
                    (ScoringFrame.runningScore
                      ⟨some roll, some r2, none, true, ss, vfs⟩) = [] from rfl]
                rw [framesRemaining_eq_some vfs nof fb _ _ (getLast?_single _)]
                simp [hpend.1, hpend.2, stateRP]
              | cons c more =>
                have hfill := frame_spare_filled_complete vfs roll r2 c true ss hs2 hc
                simp only [List.head?_cons, hfill, Bool.and_self, if_true]
                rw [List.foldl_cons,
                  show step vfs nof PState.lastSpare c = PState.ended from rfl,
                  foldl_step_ended]
                refine ⟨⟨fun _ g hg => absurd hg (List.not_mem_nil g), trivial⟩, ?_⟩
                rw [framesRemaining_eq_some vfs nof fb _ _ (getLast?_single _)]
                simp [hfill, hnof, stateRP]
            · have hl2 : isLastFlag nof fb = false := Bool.not_eq_true _ ▸ hl
              have hnof : (fb + 1 == nof) = false := by rw [← isLastFlag_iff]; exact hl2
              have hfb1 : fb + 1 < nof := by
                have hne : fb + 1 ≠ nof := by simpa using hnof
                omega
              have hstep2 : step vfs nof (PState.half fb roll) r2
                  = PState.fresh (fb + 1) := by
                simp [step, hbeq, hnof]
              rw [hl2, hstep2]
              rw [hstep2] at hvrest2
              simp only [Bool.false_and, Bool.false_eq_true, if_false]
              have IH := ih rest2 hrest2 (fb + 1)
                (ScoringFrame.runningScore
                  ⟨some roll, some r2, rest2.head?, false, ss, vfs⟩) hfb1 hvrest2
              cases rest2 with
              | nil =>
                have hpend := frame_spare_pending vfs roll r2 false ss hs2 hc
                refine ⟨⟨fun _ g hg => absurd hg (List.not_mem_nil g), trivial⟩, ?_⟩
                rw [show buildFrames vfs nof [] (fb + 1)
                    (ScoringFrame.runningScore
                      ⟨some roll, some r2, List.head? [], false, ss, vfs⟩) = [] from rfl]
                rw [framesRemaining_eq_some vfs nof fb _ _ (getLast?_single _)]
                simp [hpend.1, hpend.2, stateRP]
              | cons c more =>
                have hfill := frame_spare_filled_complete vfs roll r2 c false ss hs2 hc
                have hne := buildFrames_cons_ne_nil vfs nof c more (fb + 1)
                  (ScoringFrame.runningScore
                    ⟨some roll, some r2, (c :: more).head?, false, ss, vfs⟩)
                refine ⟨⟨?_, IH.1⟩, ?_⟩
                · intro hinc g hg
                  simp only [List.head?_cons] at hinc
                  rw [hfill] at hinc
                  cases hinc
                · rw [framesRemaining_cons vfs nof fb _ _ ?_]
                  · exact IH.2
                  · simpa using hne
          · -- overflow: impossible for validated rolls
            exfalso
            have hle : r2 ≤ vfs - roll := by simpa [stateRP] using hvle2
            omega

theorem validFrom_append (vfs : Int) (nof : Nat) :
    ∀ (xs : List Int) (s : PState) (v : Int),
      validFrom vfs nof s (xs ++ [v]) ↔
        (validFrom vfs nof s xs ∧
         stateRP vfs (List.foldl (step vfs nof) s xs) ≠ 0 ∧ 0 ≤ v ∧
         v ≤ stateRP vfs (List.foldl (step vfs nof) s xs)) := by
  intro xs
  induction xs with
  | nil =>
    intro s v
    simp only [List.nil_append, List.foldl_nil]
    constructor
    · rintro ⟨h1, h2, h3, -⟩
      exact ⟨trivial, h1, h2, h3⟩
    · rintro ⟨-, h1, h2, h3⟩
      exact ⟨h1, h2, h3, trivial⟩
  | cons x xs ih =>
    intro s v
    simp only [List.cons_append, List.foldl_cons]
    constructor
    · rintro ⟨h1, h2, h3, h4⟩
      have h5 := (ih (step vfs nof s x) v).mp h4
      exact ⟨⟨h1, h2, h3, h5.1⟩, h5.2⟩
    · rintro ⟨⟨h1, h2, h3, h4⟩, h5⟩
      exact ⟨h1, h2, h3, (ih (step vfs nof s x) v).mpr ⟨h4, h5⟩⟩

theorem machInv_default : machInv defaultGame := ⟨rfl, rfl, trivial, rfl⟩

theorem addAll_preserves_machInv :
    ∀ (rolls : List Int) (g : Game), machInv g →
      ∀ g', Game.addAll g rolls = some g' →
        machInv g' ∧ g'.rolls = g.rolls ++ rolls := by
  intro rolls
  induction rolls with
  | nil =>
    intro g hg g' h
    injection h with h
    subst h
    exact ⟨hg, (List.append_nil _).symm⟩
  | cons v rest ih =>
    intro g hg g' h
    unfold Game.addAll at h
    cases hr : g.addRoll (some v) with
    | mk g1 res =>
      rw [hr] at h
      cases res with
      | error e => cases h
      | ok w =>
        obtain ⟨hw, hv0, hvle, hrne, hg1⟩ := addRoll_ok_anatomy g v g1 w hr
        obtain ⟨hvfs, hnof, hvalid, hrp⟩ := hg
        have hvalid1 : validFrom 10 10 (PState.fresh 0) (g.rolls ++ [v]) := by
          refine (validFrom_append 10 10 g.rolls (PState.fresh 0) v).mpr
            ⟨hvalid, ?_, hv0, ?_⟩
          · rw [← hrp]; exact hrne
          · rw [← hrp]; exact hvle
        have hmach := buildFrames_machine 10 10 (g.rolls ++ [v]).length
          (g.rolls ++ [v]) (le_refl _) 0 0 (by omega) hvalid1
        have hinv1 : machInv g1 := by
          rw [hg1]
          refine ⟨hvfs, hnof, hvalid1, ?_⟩
          show (mkScoringFrameList (g.rolls ++ [v])
              g.valueForStrike g.numberOfFrames).remainingPins = _
          rw [hvfs, hnof]
          exact hmach.2
        have hrec := ih g1 hinv1 g' h
        refine ⟨hrec.1, ?_⟩
        rw [hrec.2, hg1]
        simp

theorem filter_eq_takeWhile_of_frontComplete :
    ∀ (fs : List ScoringFrame), frontComplete fs →
      fs.filter ScoringFrame.isComplete = fs.takeWhile ScoringFrame.isComplete := by
  intro fs
  induction fs with
  | nil => intro _; rfl
  | cons f t ih =>
    rintro ⟨hf, ht⟩
    cases hc : f.isComplete
    · have hall : ∀ g ∈ t, g.isComplete = false := hf hc
      simp only [List.filter_cons, List.takeWhile_cons, hc, Bool.false_eq_true,
        if_false]
      exact List.filter_eq_nil_iff.mpr (fun g hg => by simp [hall g hg])
    · simp only [List.filter_cons, List.takeWhile_cons, hc, if_true]
      rw [ih ht]

theorem takeWhile_sum_eq_runningScore :
    ∀ (fs : List ScoringFrame) (s : Int), chainedFrom s fs →
      ∀ f, (fs.takeWhile ScoringFrame.isComplete).getLast? = some f →
        s + ((fs.takeWhile ScoringFrame.isComplete).map ScoringFrame.scoreForFrame).sum
          = f.runningScore := by
  intro fs
  induction fs with
  | nil => intro s _ f hf; cases hf
  | cons hd t ih =>
    intro s hch f hf
    obtain ⟨hsupp, hcht⟩ := hch
    cases hc : hd.isComplete
    · simp only [List.takeWhile_cons, hc, Bool.false_eq_true, if_false] at hf
      cases hf
    · simp only [List.takeWhile_cons, hc, if_true] at hf ⊢
      by_cases hnil : t.takeWhile ScoringFrame.isComplete = []
      · rw [hnil] at hf ⊢
        have hfe : f = hd := by
          rw [getLast?_single] at hf
          exact (Option.some.injEq _ _ ▸ hf).symm
        subst hfe
        simp only [List.map_cons, List.map_nil, List.sum_cons, List.sum_nil]
        have hrs : f.runningScore = s + f.scoreForFrame := by
          rw [ScoringFrame.runningScore, hsupp]
        omega
      · have hf2 : (t.takeWhile ScoringFrame.isComplete).getLast? = some f := by
          obtain ⟨f2, t2, heq⟩ := List.exists_cons_of_ne_nil hnil
          rw [heq] at hf
          rw [heq, ← List.getLast?_cons_cons (a := hd) (b := f2)]
          exact hf
        have hih := ih hd.runningScore hcht f hf2
        simp only [List.map_cons, List.sum_cons]
        have hrs : hd.runningScore = s + hd.scoreForFrame := by
          rw [ScoringFrame.runningScore, hsupp]
        omega

/-- C3: for every roll history accepted by the default `Game` (each roll
validated against the then-current `remainingPins`), the complete frames form
a prefix of the scoring-frame list, and the sum of `scoreForFrame` over the
frames with `isComplete = true` equals the `runningScore` of the last such
frame — the frame scores chain without double counting or gaps. -/
theorem completed_frames_prefix_sum :
    ∀ (rolls : List Int) (g : Game), Game.addAll defaultGame rolls = some g →
      ((mkScoringFrameList rolls 10 10).scoringFrames.filter ScoringFrame.isComplete
        = (mkScoringFrameList rolls 10 10).scoringFrames.takeWhile ScoringFrame.isComplete)
      ∧ ∀ f, ((mkScoringFrameList rolls 10 10).scoringFrames.filter
            ScoringFrame.isComplete).getLast? = some f →
          (((mkScoringFrameList rolls 10 10).scoringFrames.filter
            ScoringFrame.isComplete).map ScoringFrame.scoreForFrame).sum
            = f.runningScore := by
  intro rolls g h
  obtain ⟨⟨hvfs, hnof, hvalid, hrp⟩, hrolls⟩ :=
    addAll_preserves_machInv rolls defaultGame machInv_default g h
  have hvalid2 : validFrom 10 10 (PState.fresh 0) rolls := by
    rw [hrolls] at hvalid
    simpa using hvalid
  have hmach := buildFrames_machine 10 10 rolls.length rolls (le_refl _) 0 0
    (by omega) hvalid2
  have hchain := buildFrames_chained 10 10 rolls.length rolls (le_refl _) 0 0
  have hfr : (mkScoringFrameList rolls 10 10).scoringFrames
      = buildFrames 10 10 rolls 0 0 := rfl
  rw [hfr]
  have hft := filter_eq_takeWhile_of_frontComplete _ hmach.1
  refine ⟨hft, ?_⟩
  intro f hf
  rw [hft] at hf ⊢
  have hsum := takeWhile_sum_eq_runningScore _ 0 hchain f hf
  omega

/-- Witness for `completed_frames_prefix_sum` at the accepted history
`[10, 3, 4]`: the two frames are complete and their frame scores 17 and 7 sum
to the last frame's running score 24. -/
theorem completed_frames_prefix_sum_w :
    ((mkScoringFrameList [10, 3, 4] 10 10).scoringFrames.filter ScoringFrame.isComplete
      = (mkScoringFrameList [10, 3, 4] 10 10).scoringFrames.takeWhile
          ScoringFrame.isComplete)
    ∧ (((mkScoringFrameList [10, 3, 4] 10 10).scoringFrames.filter
          ScoringFrame.isComplete).map ScoringFrame.scoreForFrame).sum
        = (ScoringFrame.mk (some 3) (some 4) none false 17 10).runningScore := by
  have h := completed_frames_prefix_sum [10, 3, 4]
    (Game.mk 10 10 "X" "/" "-" [10, 3, 4] 10 false) (by decide)
  exact ⟨h.1, h.2 (ScoringFrame.mk (some 3) (some 4) none false 17 10) (by decide)⟩
